import Mathlib

/-!
# mq-go: the queue, the connection registry, the dispatch loop and the send worker

A shallow embedding of `server.go`.

Modelling conventions.

* Every method of `Queue` and `Connections` takes the receiver's mutex for its whole
  body (`Lock` / `defer Unlock`), so a method is one atomic state transition: it is
  embedded as a pure function from the state before the call to the results and the
  state after it.
* Go's `int` is embedded as `Int`. The only arithmetic in the file is `c.last + 1` and
  `s.JobCount++`, counters that start at `0` and grow by one per call; wrap-around at
  `2^63` is not modelled.
* Go's `error` is embedded as `Option String`: `nil` is `none`, `errors.New msg` is
  `some msg`.
* Go's `map[int]string` is embedded as a finite association list with distinct keys
  (`AList`). The order of the entries stands for the (unspecified) order in which
  `range` visits the map; no statement below depends on it except where said.
-/

namespace MqGo

/-! ## Go values -/

/-- Go's `error` interface value: `nil` is `none`, `errors.New msg` is `some msg`. -/
abbrev GoError := Option String

/-- Go's `map[int]string`. -/
abbrev GoMap := AList (fun _ : Int => String)

/-- Go's `len(m)` for a map. -/
def GoMap.len (m : GoMap) : Int := m.entries.length

/-! ## Queue (server.go, lines 34-64) -/

/-- The struct `Queue`: the slice `queue` (the embedded mutex is the atomicity of the methods). -/
structure Queue where
  queue : List String
deriving DecidableEq, Repr

/-- The function `NewQueue`: `&Queue{queue: make([]string, 0)}`. -/
def NewQueue : Queue := { queue := [] }

/-- The method `Queue.Add`: `q.queue = append(q.queue, item)`. -/
def Queue.Add (q : Queue) (item : String) : Queue :=
  { queue := q.queue ++ [item] }

/-- The method `Queue.Pop`: the returned pair `(string, error)` and the queue afterwards. -/
def Queue.Pop (q : Queue) : (String × GoError) × Queue :=
  if q.queue.length = 0 then
    (("", some "Cannot pop empty queue."), q)
  else
    ((q.queue.headD "", none), { queue := q.queue.drop 1 })

/-- The method `Queue.Len`: `len(q.queue)`. -/
def Queue.Len (q : Queue) : Int := q.queue.length

/-- The calls `Add(m1)`, ..., `Add(mn)` in this order. -/
def Queue.AddAll (q : Queue) (ms : List String) : Queue :=
  ms.foldl Queue.Add q

/-- The next `n` calls of `Pop`: their results in call order, and the queue afterwards. -/
def Queue.PopN : Nat → Queue → List (String × GoError) × Queue
  | 0, q => ([], q)
  | n + 1, q =>
    let r := q.Pop
    let rest := Queue.PopN n r.2
    (r.1 :: rest.1, rest.2)

/-! ## Connections (server.go, lines 66-132) -/

/-- The struct `Connections`: the counter `last` and the two map objects allocated by
`NewConnections`. The fields `writers` and `readers` are never reassigned after
construction (the maps are only updated in place), so each field holds the current
contents of one fixed map object for the whole life of the registry. -/
structure Connections where
  last : Int
  writers : GoMap
  readers : GoMap
deriving DecidableEq

/-- A Go map value is a reference to a map object. The registry owns exactly two map
objects; a `MapRef` says which of them a map value points to. -/
inductive MapRef where
  | writers
  | readers
deriving DecidableEq, Repr

/-- The contents, in registry state `c`, of the map object a map value refers to. -/
def Connections.deref (c : Connections) : MapRef → GoMap
  | .writers => c.writers
  | .readers => c.readers

/-- The function `NewConnections`. -/
def NewConnections : Connections :=
  { last := 0, writers := ∅, readers := ∅ }

/-- The method `Connections.AddConnection`: the returned pair `(int, error)` and the
registry afterwards. -/
def Connections.AddConnection (c : Connections) (url mode : String) :
    (Int × GoError) × Connections :=
  let current := c.last + 1
  if mode = "send" then
    let c1 := { c with writers := c.writers.insert current url }
    let c2 := { c1 with last := current }
    ((c2.last, none), c2)
  else if mode = "receive" then
    let c1 := { c with readers := c.readers.insert current url }
    let c2 := { c1 with last := current }
    ((c2.last, none), c2)
  else
    ((0, some ("Request Error: Incorrect mode string " ++ mode ++ ".")), c)

/-- The method `Connections.Disconnect`: the returned error and the registry afterwards. -/
def Connections.Disconnect (c : Connections) (id : Int) : GoError × Connections :=
  if id ∈ c.writers then
    (none, { c with writers := c.writers.erase id })
  else if id ∈ c.readers then
    (none, { c with readers := c.readers.erase id })
  else
    (some "Could not disconnect client. No such connection in map.", c)

/-- The method `Connections.Writers`: `return c.writers`, the map value held in the
field, that is a reference to the writers table itself. -/
def Connections.Writers (_c : Connections) : MapRef := MapRef.writers

/-- The method `Connections.Readers`: `return c.readers`, the map value held in the
field, that is a reference to the readers table itself. -/
def Connections.Readers (_c : Connections) : MapRef := MapRef.readers

/-- One call on the registry. -/
inductive Op where
  | add (url mode : String)
  | disconnect (id : Int)
deriving DecidableEq, Repr

/-- The registry after one call. -/
def Connections.step (c : Connections) : Op → Connections
  | .add url mode => (c.AddConnection url mode).2
  | .disconnect id => (c.Disconnect id).2

/-- The registry after a sequence of calls. -/
def Connections.run (c : Connections) (ops : List Op) : Connections :=
  ops.foldl Connections.step c

/-- The ids returned by the successful `AddConnection` calls of a sequence of calls, in
call order. -/
def Connections.addResults (c : Connections) : List Op → List Int
  | [] => []
  | .add url mode :: ops =>
    let r := c.AddConnection url mode
    match r.1.2 with
    | none => r.1.1 :: Connections.addResults r.2 ops
    | some _ => Connections.addResults r.2 ops
  | .disconnect id :: ops => Connections.addResults (c.Disconnect id).2 ops

/-- The registry states reachable from `NewConnections()` by `AddConnection` and
`Disconnect` calls with any arguments. -/
inductive Reachable : Connections → Prop where
  | init : Reachable NewConnections
  | add (c : Connections) (url mode : String) :
      Reachable c → Reachable (c.AddConnection url mode).2
  | disconnect (c : Connections) (id : Int) :
      Reachable c → Reachable (c.Disconnect id).2

/-- Whether a call is an `AddConnection` with one of the two recognised roles. -/
def Op.isValidAdd : Op → Bool
  | .add _ mode => mode = "send" ∨ mode = "receive"
  | .disconnect _ => false

/-- The bookkeeping invariant of the registry: every key of either table is at most
`last`, and no id is a key of both tables. -/
def Connections.Inv (c : Connections) : Prop :=
  (∀ k, k ∈ c.writers → k ≤ c.last) ∧ (∀ k, k ∈ c.readers → k ≤ c.last)
    ∧ ∀ k, ¬ (k ∈ c.writers ∧ k ∈ c.readers)

/-! ## Server and the dispatch loop (server.go, lines 134-152 and 272-296) -/

/-- The struct `MsgJob`. `Dests` is a map value, hence a reference. -/
structure MsgJob where
  JobID : Int
  Msg : String
  Dests : MapRef
deriving DecidableEq, Repr

/-- The struct `Server`. The channel `Jobs` is embedded as the list of the jobs sent on
it so far, in send order: a send that finds the buffer full blocks until a worker has
taken a job and then completes, so only the moment of a send depends on the capacity,
not which jobs are sent or in what order. -/
structure Server where
  Queue : MqGo.Queue
  Connections : MqGo.Connections
  JobCount : Int
  Jobs : List MsgJob
deriving DecidableEq

/-- The function `NewServer` (the capacity `numJobs` of the channel is not recorded). -/
def NewServer (_numJobs : Int) : Server :=
  { Queue := NewQueue, Connections := NewConnections, JobCount := 0, Jobs := [] }

/-- One iteration of the `for` loop of `Server.SendManager`. The result is `none` when
the iteration calls `log.Fatal` (the process exits). -/
def Server.SendManagerIter (s : Server) : Option Server :=
  let rs := s.Connections.Readers
  if s.Queue.Len > 0 ∧ (s.Connections.deref rs).len > 0 then
    let r := s.Queue.Pop
    match r.1.2 with
    | some _ => none
    | none =>
      let j : MsgJob := { JobID := s.JobCount, Msg := r.1.1, Dests := rs }
      some { s with Queue := r.2, JobCount := s.JobCount + 1, Jobs := s.Jobs ++ [j] }
  else
    some s

/-- The method `Server.SendManager`, run for the first `n` iterations of its `for` loop
with no call from outside in between. The loop has no exit, so the number of iterations
looked at is a parameter; the `numWorkers` goroutines it starts beforehand run
`SendWorker` on the channel and do not touch the server state. -/
def Server.SendManager : Nat → Server → Option Server
  | 0, s => some s
  | n + 1, s =>
    match s.SendManagerIter with
    | none => none
    | some s1 => Server.SendManager n s1

/-! ## The send worker (server.go, lines 254-270) -/

/-- The outcome of one delivery: `http.Post` fails, or it succeeds and `io.ReadAll` of
the response body fails, or both succeed and the body is read. -/
inductive Delivery where
  | postErr (err : String)
  | readErr (err : String)
  | ok (body : String)
deriving DecidableEq, Repr

/-- The network as the worker sees it: the outcome of the delivery of the job with the
given `JobID` to the destination with the given id. -/
abbrev Net := Int → Int → Delivery

/-- What a worker does that is visible from outside. -/
inductive Event where
  | post (url body : String)
  | logSent (worker job : Int) (url : String)
  | logResponse (worker job : Int) (url body : String)
  | fatal (msg : String)
deriving DecidableEq, Repr

/-- The body of the inner loop of `SendWorker` for one destination: the events, and
whether the process is still alive afterwards (`log.Fatal` ends it). -/
def SendWorkerDest (net : Net) (id : Int) (j : MsgJob) (dest : Int) (v : String) :
    List Event × Bool :=
  match net j.JobID dest with
  | .postErr err => ([.post v j.Msg, .logSent id j.JobID v, .fatal err], false)
  | .readErr err2 => ([.post v j.Msg, .logSent id j.JobID v, .fatal err2], false)
  | .ok barr => ([.post v j.Msg, .logSent id j.JobID v, .logResponse id j.JobID v barr], true)

/-- The inner loop of `SendWorker`, `for _, v := range j.Dests`, over the entries of the
map in the order `range` visits them. -/
def SendWorkerDests (net : Net) (id : Int) (j : MsgJob) :
    List (Sigma (fun _ : Int => String)) → List Event × Bool
  | [] => ([], true)
  | d :: ds =>
    let r := SendWorkerDest net id j d.1 d.2
    if r.2 then
      let rest := SendWorkerDests net id j ds
      (r.1 ++ rest.1, rest.2)
    else
      (r.1, false)

/-- The function `SendWorker` on the jobs it receives from the channel, in order, with
the registry in state `c` throughout: the events, and whether the process is still
alive afterwards. -/
def SendWorker (net : Net) (c : Connections) (id : Int) : List MsgJob → List Event × Bool
  | [] => ([], true)
  | j :: js =>
    let r := SendWorkerDests net id j (c.deref j.Dests).entries
    if r.2 then
      let rest := SendWorker net c id js
      (r.1 ++ rest.1, rest.2)
    else
      (r.1, false)

/-- The jobs the dispatch loop is expected to send for the messages `ms` when the counter
is `cnt` at the start: the `i`-th (from `0`) carries `JobID = cnt + i`, the `i`-th message
and the map value `rs`. -/
def dispatched (rs : MapRef) (cnt : Int) (ms : List String) : List MsgJob :=
  ms.enum.map (fun p => { JobID := cnt + (p.1 : Int), Msg := p.2, Dests := rs })

/-- Whether a delivery succeeded: `http.Post` and `io.ReadAll` both returned no error. -/
def Delivery.isOk : Delivery → Bool
  | .ok _ => true
  | _ => false

/-- The deliveries a worker has to make for a list of jobs, in the order it reaches them:
each job paired with each entry of its `Dests` (read in registry state `c`). -/
def deliveries (c : Connections) (jobs : List MsgJob) :
    List (MsgJob × Sigma (fun _ : Int => String)) :=
  jobs.flatMap (fun j => (c.deref j.Dests).entries.map (fun d => (j, d)))

/-- The `http.Post` calls among the events of a worker, in order: `(url, body)`. -/
def posts : List Event → List (String × String)
  | [] => []
  | .post url body :: es => (url, body) :: posts es
  | _ :: es => posts es

/-- A worker run over an explicit list of deliveries: each is attempted in turn until one
fails, which ends the process. -/
def runDeliveries (net : Net) (id : Int) :
    List (MsgJob × Sigma (fun _ : Int => String)) → List Event × Bool
  | [] => ([], true)
  | p :: ps =>
    let r := SendWorkerDest net id p.1 p.2.1 p.2.2
    if r.2 then
      let rest := runDeliveries net id ps
      (r.1 ++ rest.1, rest.2)
    else
      (r.1, false)

/-! ## Concrete inputs used in witnesses and counterexamples -/

/-- A registry with the single receiver `1 -> "http://x"`. -/
def oneReceiver : Connections :=
  (NewConnections.AddConnection "http://x" "receive").2

/-- A registry with the two receivers `1 -> "http://a"` and `2 -> "http://b"`. -/
def twoReceivers : Connections :=
  ((NewConnections.AddConnection "http://a" "receive").2.AddConnection "http://b" "receive").2

/-- A server with the message "a" queued and the single receiver `1 -> "http://x"`. -/
def oneMessageServer : Server :=
  { Queue := NewQueue.Add "a", Connections := oneReceiver, JobCount := 0, Jobs := [] }

/-- A network on which the delivery to destination `2` is refused and every other
delivery succeeds. -/
def refusedAtTwo : Net :=
  fun _ dest => if dest = 2 then Delivery.postErr "connection refused" else Delivery.ok "ok"

/-! ## Queue: lemmas -/

theorem Queue.AddAll_queue (q : Queue) (ms : List String) :
    (q.AddAll ms).queue = q.queue ++ ms := by
  induction ms generalizing q with
  | nil => simp [Queue.AddAll]
  | cons m ms ih =>
    have h := ih (q.Add m)
    simp only [Queue.AddAll, List.foldl_cons] at h ⊢
    rw [h]
    simp [Queue.Add]

theorem Queue.PopN_of_queue (ms rest : List String) :
    Queue.PopN ms.length { queue := ms ++ rest }
      = (ms.map (fun m => (m, (none : GoError))), { queue := rest }) := by
  induction ms with
  | nil => simp [Queue.PopN]
  | cons m ms ih =>
    simp only [List.length_cons, Queue.PopN, Queue.Pop, List.cons_append]
    simp [ih]

/-! ## Queue: claims -/

/-- C1 (FIFO law): starting from `NewQueue()` and calling `Add(m1)`, ..., `Add(mn)`, the
next `n` calls of `Pop` all succeed (error `nil`) and return `m1`, ..., `mn` in exactly
that order, after which `Len()` is `0`. -/
theorem C1_fifo_law (ms : List String) :
    (Queue.PopN ms.length (NewQueue.AddAll ms)).1 = ms.map (fun m => (m, (none : GoError)))
    ∧ (Queue.PopN ms.length (NewQueue.AddAll ms)).2.Len = 0 := by
  have hq : NewQueue.AddAll ms = { queue := ms ++ [] } := by
    have h := Queue.AddAll_queue NewQueue ms
    cases hq : NewQueue.AddAll ms with
    | mk l =>
      rw [hq] at h
      simp only [NewQueue, List.nil_append] at h
      simp [h]
  rw [hq, Queue.PopN_of_queue]
  simp [Queue.Len]

/-- C2: `Pop` returns an error exactly when the queue holds no item; in that case it
returns the empty string and leaves the queue as it was (`Len()` still `0`); in every
other case it returns no error, the earliest item, and `Len()` decreases by exactly one. -/
theorem C2_pop_error_iff_empty (q : Queue) :
    (q.Pop.1.2 ≠ none ↔ q.Len = 0)
    ∧ (q.Len = 0 → q.Pop.1 = ("", some "Cannot pop empty queue.") ∧ q.Pop.2 = q
        ∧ q.Pop.2.Len = 0)
    ∧ (q.Len ≠ 0 → q.Pop.1.2 = none ∧ q.queue.head? = some q.Pop.1.1
        ∧ q.Pop.2.Len = q.Len - 1) := by
  cases q with
  | mk l =>
    cases l with
    | nil => simp [Queue.Pop, Queue.Len]
    | cons a l => simp [Queue.Pop, Queue.Len]; omega

/-! ## Connections: lemmas -/

theorem Connections.Inv_new : NewConnections.Inv := by
  simp [Connections.Inv, NewConnections]

theorem Connections.AddConnection_send (c : Connections) (url : String) :
    c.AddConnection url "send"
      = ((c.last + 1, none),
         { last := c.last + 1, writers := c.writers.insert (c.last + 1) url,
           readers := c.readers }) := by
  simp [Connections.AddConnection]

theorem Connections.AddConnection_receive (c : Connections) (url : String) :
    c.AddConnection url "receive"
      = ((c.last + 1, none),
         { last := c.last + 1, writers := c.writers,
           readers := c.readers.insert (c.last + 1) url }) := by
  simp [Connections.AddConnection]

theorem Connections.AddConnection_invalid (c : Connections) (url mode : String)
    (h1 : mode ≠ "send") (h2 : mode ≠ "receive") :
    c.AddConnection url mode
      = ((0, some ("Request Error: Incorrect mode string " ++ mode ++ ".")), c) := by
  simp [Connections.AddConnection, h1, h2]

theorem Connections.Inv_add (c : Connections) (url mode : String) (h : c.Inv) :
    (c.AddConnection url mode).2.Inv := by
  obtain ⟨hw, hr, hd⟩ := h
  by_cases h1 : mode = "send"
  · subst h1
    rw [Connections.AddConnection_send]
    simp only [Connections.Inv, AList.mem_insert]
    refine ⟨?_, ?_, ?_⟩
    · rintro k (rfl | hk)
      · exact le_refl _
      · have := hw k hk; omega
    · intro k hk
      have := hr k hk; omega
    · rintro k ⟨rfl | hk, hk2⟩
      · have := hr _ hk2; omega
      · exact hd k ⟨hk, hk2⟩
  · by_cases h2 : mode = "receive"
    · subst h2
      rw [Connections.AddConnection_receive]
      simp only [Connections.Inv, AList.mem_insert]
      refine ⟨?_, ?_, ?_⟩
      · intro k hk
        have := hw k hk; omega
      · rintro k (rfl | hk)
        · exact le_refl _
        · have := hr k hk; omega
      · rintro k ⟨hk, rfl | hk2⟩
        · have := hw _ hk; omega
        · exact hd k ⟨hk, hk2⟩
    · rw [Connections.AddConnection_invalid c url mode h1 h2]
      exact ⟨hw, hr, hd⟩

theorem Connections.Inv_disconnect (c : Connections) (id : Int) (h : c.Inv) :
    (c.Disconnect id).2.Inv := by
  obtain ⟨hw, hr, hd⟩ := h
  unfold Connections.Disconnect
  by_cases h1 : id ∈ c.writers
  · simp only [h1, if_true, Connections.Inv, AList.mem_erase]
    exact ⟨fun k hk => hw k hk.2, hr, fun k hk => hd k ⟨hk.1.2, hk.2⟩⟩
  · by_cases h2 : id ∈ c.readers
    · simp only [h1, h2, if_true, if_false, Connections.Inv, AList.mem_erase]
      exact ⟨hw, fun k hk => hr k hk.2, fun k hk => hd k ⟨hk.1, hk.2.2⟩⟩
    · simp only [h1, h2, if_false]
      exact ⟨hw, hr, hd⟩

theorem Connections.Inv_step (c : Connections) (op : Op) (h : c.Inv) : (c.step op).Inv := by
  cases op with
  | add url mode => exact Connections.Inv_add c url mode h
  | disconnect id => exact Connections.Inv_disconnect c id h

theorem Connections.Inv_run (ops : List Op) (c : Connections) (h : c.Inv) :
    (c.run ops).Inv := by
  induction ops generalizing c with
  | nil => exact h
  | cons op ops ih => exact ih (c.step op) (Connections.Inv_step c op h)

theorem Reachable.inv {c : Connections} (h : Reachable c) : c.Inv := by
  induction h with
  | init => exact Connections.Inv_new
  | add c url mode _ ih => exact Connections.Inv_add c url mode ih
  | disconnect c id _ ih => exact Connections.Inv_disconnect c id ih

theorem Connections.Disconnect_last (c : Connections) (id : Int) :
    (c.Disconnect id).2.last = c.last := by
  unfold Connections.Disconnect
  split_ifs <;> rfl

theorem Connections.addResults_eq (ops : List Op) (c : Connections) :
    c.addResults ops
      = (List.range (ops.countP Op.isValidAdd)).map (fun (i : Nat) => c.last + 1 + (i : Int)) := by
  induction ops generalizing c with
  | nil => simp [Connections.addResults]
  | cons op ops ih =>
    cases op with
    | disconnect id =>
      simp [Connections.addResults, ih, Op.isValidAdd, Connections.Disconnect_last]
    | add url mode =>
      by_cases h1 : mode = "send"
      · subst h1
        simp only [Connections.addResults, Connections.AddConnection_send, ih]
        rw [List.countP_cons_of_pos _ _ (by simp [Op.isValidAdd]), List.range_succ_eq_map]
        simp only [List.map_cons, List.map_map, Nat.cast_zero, add_zero, List.cons.injEq,
          true_and]
        apply List.map_congr_left
        intro i _
        simp only [Function.comp, Nat.succ_eq_add_one, Nat.cast_add, Nat.cast_one]
        omega
      · by_cases h2 : mode = "receive"
        · subst h2
          simp only [Connections.addResults, Connections.AddConnection_receive, ih]
          rw [List.countP_cons_of_pos _ _ (by simp [Op.isValidAdd]), List.range_succ_eq_map]
          simp only [List.map_cons, List.map_map, Nat.cast_zero, add_zero, List.cons.injEq,
            true_and]
          apply List.map_congr_left
          intro i _
          simp only [Function.comp, Nat.succ_eq_add_one, Nat.cast_add, Nat.cast_one]
          omega
        · simp only [Connections.addResults, Connections.AddConnection_invalid c url mode h1 h2,
            ih]
          rw [List.countP_cons_of_neg _ _ (by simp [Op.isValidAdd, h1, h2])]

theorem Connections.addResults_gt (ops : List Op) (c : Connections) (x : Int)
    (hx : x ∈ c.addResults ops) : c.last < x := by
  rw [Connections.addResults_eq] at hx
  simp only [List.mem_map, List.mem_range] at hx
  obtain ⟨i, _, rfl⟩ := hx
  omega

theorem range_shift_pairwise (n : Nat) (a : Int) :
    ((List.range n).map (fun (i : Nat) => a + (i : Int))).Pairwise (fun x y => x < y) := by
  rw [List.pairwise_map]
  refine List.Pairwise.imp ?_ (List.pairwise_lt_range n)
  intro i j hij
  omega

theorem Connections.addResults_append (pre post : List Op) (c : Connections) :
    c.addResults (pre ++ post) = c.addResults pre ++ (c.run pre).addResults post := by
  induction pre generalizing c with
  | nil => simp [Connections.addResults, Connections.run]
  | cons op pre ih =>
    cases op with
    | disconnect id =>
      simp [Connections.addResults, Connections.run, Connections.step, ih]
    | add url mode =>
      simp only [List.cons_append, Connections.addResults, Connections.run, List.foldl_cons,
        Connections.step]
      cases (c.AddConnection url mode).1.2 with
      | none => simp [ih, Connections.run]
      | some e => simp [ih, Connections.run]

theorem Connections.run_append (pre post : List Op) (c : Connections) :
    c.run (pre ++ post) = (c.run pre).run post := by
  simp [Connections.run, List.foldl_append]

theorem Connections.Disconnect_of_mem_writers (c : Connections) (id : Int)
    (h : id ∈ c.writers) :
    c.Disconnect id = (none, { c with writers := c.writers.erase id }) := by
  simp [Connections.Disconnect, h]

theorem Connections.Disconnect_of_mem_readers (c : Connections) (id : Int)
    (h1 : id ∉ c.writers) (h2 : id ∈ c.readers) :
    c.Disconnect id = (none, { c with readers := c.readers.erase id }) := by
  simp [Connections.Disconnect, h1, h2]

theorem Connections.Disconnect_of_not_mem (c : Connections) (id : Int)
    (h1 : id ∉ c.writers) (h2 : id ∉ c.readers) :
    c.Disconnect id
      = (some "Could not disconnect client. No such connection in map.", c) := by
  simp [Connections.Disconnect, h1, h2]

/-! ## Connections: claims -/

/-- C3: for every registry state, every address and every role string other than "send"
and "receive", `AddConnection` returns `0` together with an error and leaves the registry
unchanged: the counter `last`, the writers table and the readers table are what they
were before the call. -/
theorem C3_add_invalid_role (c : Connections) (url mode : String)
    (h1 : mode ≠ "send") (h2 : mode ≠ "receive") :
    (c.AddConnection url mode).1
        = (0, some ("Request Error: Incorrect mode string " ++ mode ++ "."))
    ∧ (c.AddConnection url mode).1.2 ≠ none
    ∧ (c.AddConnection url mode).2 = c
    ∧ (c.AddConnection url mode).2.last = c.last
    ∧ (c.AddConnection url mode).2.writers = c.writers
    ∧ (c.AddConnection url mode).2.readers = c.readers := by
  simp [Connections.AddConnection, h1, h2]

/-- Witness of C3: the roles "broadcast" and "" on a registry holding one sender and one
receiver. -/
theorem C3_add_invalid_role_witness :
    ((((NewConnections.AddConnection "http://w" "send").2.AddConnection
        "http://r" "receive").2.AddConnection "http://x" "broadcast").2
      = ((NewConnections.AddConnection "http://w" "send").2.AddConnection
        "http://r" "receive").2)
    ∧ ((NewConnections.AddConnection "http://x" "").1.2 ≠ none) :=
  ⟨(C3_add_invalid_role _ "http://x" "broadcast" (by decide) (by decide)).2.2.1,
   (C3_add_invalid_role NewConnections "http://x" "" (by decide) (by decide)).2.1⟩

/-- C4: for every registry state, every address and every role in {"send", "receive"},
`AddConnection` returns `last + 1` and no error, sets `last` to that value, maps the new
id to the given address in the table matching the role (writers for "send", readers for
"receive"), and leaves the other table and every other entry of the matching table
unchanged. -/
theorem C4_add_valid_role (c : Connections) (url mode : String)
    (h : mode = "send" ∨ mode = "receive") :
    (c.AddConnection url mode).1 = (c.last + 1, none)
    ∧ (c.AddConnection url mode).2.last = c.last + 1
    ∧ (mode = "send" →
        (c.AddConnection url mode).2.writers.lookup (c.last + 1) = some url
        ∧ (∀ k, k ≠ c.last + 1 →
            (c.AddConnection url mode).2.writers.lookup k = c.writers.lookup k)
        ∧ (c.AddConnection url mode).2.readers = c.readers)
    ∧ (mode = "receive" →
        (c.AddConnection url mode).2.readers.lookup (c.last + 1) = some url
        ∧ (∀ k, k ≠ c.last + 1 →
            (c.AddConnection url mode).2.readers.lookup k = c.readers.lookup k)
        ∧ (c.AddConnection url mode).2.writers = c.writers) := by
  rcases h with rfl | rfl
  · simp only [Connections.AddConnection, if_true, AList.lookup_insert, true_and]
    refine ⟨fun _ => ⟨fun k hk => AList.lookup_insert_ne hk, trivial⟩, fun h => ?_⟩
    exact absurd h (by decide)
  · simp only [Connections.AddConnection, show ¬ ("receive" = "send") by decide, if_false,
      if_true, AList.lookup_insert, true_and]
    refine ⟨fun h => absurd h (by decide), fun _ => ⟨fun k hk => AList.lookup_insert_ne hk, trivial⟩⟩

/-- Witness of C4: a receiver registered on a registry that already holds a sender. -/
theorem C4_add_valid_role_witness :
    ("receive" = "send" ∨ "receive" = "receive")
    ∧ ((NewConnections.AddConnection "http://w" "send").2.AddConnection
        "http://r" "receive").1
      = ((NewConnections.AddConnection "http://w" "send").2.last + 1, none) :=
  ⟨Or.inr rfl, (C4_add_valid_role (NewConnections.AddConnection "http://w" "send").2
    "http://r" "receive" (Or.inr rfl)).1⟩

/-- C5: for every sequence of `AddConnection` calls (either role, or an invalid role)
and `Disconnect` calls applied to `NewConnections()`, the ids returned by the successful
`AddConnection` calls are `1, 2, ..., n` in call order, where `n` is the number of calls
with a recognised role: the `k`-th successful call returns exactly `k`. Hence the ids are
strictly increasing and pairwise distinct, and an id removed by a successful `Disconnect`
is not returned by any later `AddConnection`. -/
theorem C5_ids_contiguous_never_reused (ops : List Op) :
    NewConnections.addResults ops
      = (List.range (ops.countP Op.isValidAdd)).map (fun (i : Nat) => (i : Int) + 1)
    ∧ (∀ (k : Nat) (hk : k < (NewConnections.addResults ops).length),
        (NewConnections.addResults ops).get ⟨k, hk⟩ = (k : Int) + 1)
    ∧ (NewConnections.addResults ops).Pairwise (fun x y => x < y)
    ∧ (NewConnections.addResults ops).Nodup
    ∧ (∀ (pre post : List Op) (id : Int), ops = pre ++ Op.disconnect id :: post →
        (id ∈ (NewConnections.run pre).writers ∨ id ∈ (NewConnections.run pre).readers) →
        id ∉ (NewConnections.run (pre ++ [Op.disconnect id])).addResults post) := by
  have heq : NewConnections.addResults ops
      = (List.range (ops.countP Op.isValidAdd)).map (fun (i : Nat) => (i : Int) + 1) := by
    rw [Connections.addResults_eq]
    apply List.map_congr_left
    intro i _
    simp only [NewConnections]
    omega
  have hpw : (NewConnections.addResults ops).Pairwise (fun x y => x < y) := by
    rw [Connections.addResults_eq]
    have h := range_shift_pairwise (ops.countP Op.isValidAdd) (NewConnections.last + 1)
    exact h
  refine ⟨heq, ?_, hpw, ?_, ?_⟩
  · intro k hk
    have hget : (NewConnections.addResults ops)[k]? = some ((k : Int) + 1) := by
      rw [heq] at hk ⊢
      simp only [List.length_map, List.length_range] at hk
      simp [List.getElem?_map, List.getElem?_range hk]
    have h2 := List.getElem?_eq_getElem hk
    rw [hget] at h2
    simpa using h2.symm
  · exact hpw.imp (fun h => ne_of_lt h)
  · intro pre post id _ hmem hin
    have hinv := Connections.Inv_run pre NewConnections Connections.Inv_new
    have hle : id ≤ (NewConnections.run pre).last := by
      rcases hmem with h | h
      · exact hinv.1 id h
      · exact hinv.2.1 id h
    have hgt := Connections.addResults_gt post _ id hin
    rw [Connections.run_append] at hgt
    simp only [Connections.run, List.foldl_cons, List.foldl_nil, Connections.step,
      Connections.Disconnect_last] at hgt hle
    omega

/-- C6: for every registry state reachable from `NewConnections()` and every id,
`Disconnect(id)` returns an error exactly when `id` is a key of neither table, and then
changes nothing; otherwise it returns no error, `id` is afterwards a key of neither
table, every other entry and the counter `last` are unchanged, and an immediately
following second `Disconnect(id)` returns the error. -/
theorem C6_disconnect (c : Connections) (id : Int) (hc : Reachable c) :
    ((c.Disconnect id).1 ≠ none ↔ (id ∉ c.writers ∧ id ∉ c.readers))
    ∧ ((id ∉ c.writers ∧ id ∉ c.readers) →
        (c.Disconnect id).1 = some "Could not disconnect client. No such connection in map."
        ∧ (c.Disconnect id).2 = c)
    ∧ ((id ∈ c.writers ∨ id ∈ c.readers) →
        (c.Disconnect id).1 = none
        ∧ id ∉ (c.Disconnect id).2.writers ∧ id ∉ (c.Disconnect id).2.readers
        ∧ (∀ k, k ≠ id →
            (c.Disconnect id).2.writers.lookup k = c.writers.lookup k
            ∧ (c.Disconnect id).2.readers.lookup k = c.readers.lookup k)
        ∧ (c.Disconnect id).2.last = c.last
        ∧ ((c.Disconnect id).2.Disconnect id).1
            = some "Could not disconnect client. No such connection in map.") := by
  have hd := hc.inv.2.2 id
  by_cases hw : id ∈ c.writers
  · have hr : id ∉ c.readers := fun h => hd ⟨hw, h⟩
    have hw1 : id ∉ c.writers.erase id := by simp [AList.mem_erase]
    rw [Connections.Disconnect_of_mem_writers c id hw]
    refine ⟨by simp [hw], fun h => absurd hw h.1, fun _ => ⟨rfl, hw1, hr, ?_, rfl, ?_⟩⟩
    · intro k hk
      exact ⟨AList.lookup_erase_ne hk, rfl⟩
    · exact congrArg Prod.fst (Connections.Disconnect_of_not_mem
        { last := c.last, writers := c.writers.erase id, readers := c.readers } id hw1 hr)
  · by_cases hr : id ∈ c.readers
    · have hr1 : id ∉ c.readers.erase id := by simp [AList.mem_erase]
      rw [Connections.Disconnect_of_mem_readers c id hw hr]
      refine ⟨by simp [hr], fun h => absurd hr h.2, fun _ => ⟨rfl, hw, hr1, ?_, rfl, ?_⟩⟩
      · intro k hk
        exact ⟨rfl, AList.lookup_erase_ne hk⟩
      · exact congrArg Prod.fst (Connections.Disconnect_of_not_mem
          { last := c.last, writers := c.writers, readers := c.readers.erase id } id hw hr1)
    · rw [Connections.Disconnect_of_not_mem c id hw hr]
      refine ⟨by simp [hw, hr], fun _ => ⟨rfl, rfl⟩, fun h => ?_⟩
      rcases h with h | h
      · exact absurd h hw
      · exact absurd h hr

/-- Witness of C6: the receiver with id `2` of a registry that holds a sender `1` and a
receiver `2` is disconnected; a second `Disconnect(2)` fails. -/
theorem C6_disconnect_witness :
    Reachable ((NewConnections.AddConnection "http://w" "send").2.AddConnection
        "http://r" "receive").2
    ∧ ((((NewConnections.AddConnection "http://w" "send").2.AddConnection
        "http://r" "receive").2.Disconnect 2).1 ≠ none
      ↔ ((2 : Int) ∉ ((NewConnections.AddConnection "http://w" "send").2.AddConnection
          "http://r" "receive").2.writers
        ∧ (2 : Int) ∉ ((NewConnections.AddConnection "http://w" "send").2.AddConnection
          "http://r" "receive").2.readers)) :=
  ⟨Reachable.add _ _ _ (Reachable.add _ _ _ Reachable.init),
   (C6_disconnect _ 2 (Reachable.add _ _ _ (Reachable.add _ _ _ Reachable.init))).1⟩

/-- C7 (registry invariant): in every state reachable from `NewConnections()` by any
sequence of `AddConnection` and `Disconnect` calls, no id is a key of both the writers
table and the readers table. -/
theorem C7_tables_disjoint (c : Connections) (hc : Reachable c) (k : Int) :
    ¬ (k ∈ c.writers ∧ k ∈ c.readers) :=
  hc.inv.2.2 k

/-- Witness of C7: a registry after two registrations and one removal. -/
theorem C7_tables_disjoint_witness :
    Reachable (((NewConnections.AddConnection "http://w" "send").2.AddConnection
        "http://r" "receive").2.Disconnect 1).2
    ∧ ¬ ((2 : Int) ∈ (((NewConnections.AddConnection "http://w" "send").2.AddConnection
          "http://r" "receive").2.Disconnect 1).2.writers
        ∧ (2 : Int) ∈ (((NewConnections.AddConnection "http://w" "send").2.AddConnection
          "http://r" "receive").2.Disconnect 1).2.readers) :=
  ⟨Reachable.disconnect _ _ (Reachable.add _ _ _ (Reachable.add _ _ _ Reachable.init)),
   C7_tables_disjoint _
    (Reachable.disconnect _ _ (Reachable.add _ _ _ (Reachable.add _ _ _ Reachable.init))) 2⟩

/-! ## Dispatch loop: lemmas -/

theorem SendManagerIter_idle (s : Server)
    (h : s.Queue.Len = 0 ∨ (s.Connections.deref s.Connections.Readers).len = 0) :
    s.SendManagerIter = some s := by
  unfold Server.SendManagerIter
  have hn : ¬ (s.Queue.Len > 0 ∧ (s.Connections.deref s.Connections.Readers).len > 0) := by
    rintro ⟨h1, h2⟩
    rcases h with h | h <;> omega
  simp only [hn, if_false]

theorem SendManagerLoop_idle (k : Nat) (s : Server)
    (h : s.Queue.Len = 0 ∨ (s.Connections.deref s.Connections.Readers).len = 0) :
    Server.SendManager k s = some s := by
  induction k with
  | zero => rfl
  | succ k ih => simp only [Server.SendManager, SendManagerIter_idle s h, ih]

theorem SendManagerIter_cons (m : String) (ms : List String) (c : Connections)
    (cnt : Int) (js : List MsgJob) (hR : 0 < (c.deref c.Readers).len) :
    Server.SendManagerIter
        { Queue := { queue := m :: ms }, Connections := c, JobCount := cnt, Jobs := js }
      = some { Queue := { queue := ms }, Connections := c, JobCount := cnt + 1,
               Jobs := js ++ [{ JobID := cnt, Msg := m, Dests := c.Readers }] } := by
  have hlen : (0 : Int) < (({ queue := m :: ms } : Queue)).Len := by
    simp only [Queue.Len, List.length_cons]
    omega
  simp only [Server.SendManagerIter, gt_iff_lt, hlen, hR, and_self, if_true]
  simp [Queue.Pop]

theorem SendManagerLoop_enumFrom (ms : List String) (c : Connections)
    (hR : 0 < (c.deref c.Readers).len) (cnt : Int) (k : Nat) (js : List MsgJob) :
    Server.SendManager ms.length
        { Queue := { queue := ms }, Connections := c, JobCount := cnt + (k : Int), Jobs := js }
      = some { Queue := { queue := [] }, Connections := c,
               JobCount := cnt + (k : Int) + (ms.length : Int),
               Jobs := js ++ (ms.enumFrom k).map
                 (fun p => ({ JobID := cnt + (p.1 : Int), Msg := p.2, Dests := c.Readers } : MsgJob)) } := by
  induction ms generalizing k js with
  | nil => simp [Server.SendManager]
  | cons m ms ih =>
    simp only [List.length_cons, Server.SendManager,
      SendManagerIter_cons m ms c (cnt + (k : Int)) js hR]
    have h := ih (k + 1) (js ++ [{ JobID := cnt + (k : Int), Msg := m, Dests := c.Readers }])
    have e1 : cnt + ((k + 1 : Nat) : Int) = cnt + (k : Int) + 1 := by push_cast; ring
    rw [e1] at h
    rw [h]
    simp only [List.enumFrom_cons, List.map_cons, List.append_assoc, List.singleton_append,
      Nat.cast_add, Nat.cast_one]
    congr 2
    ring

theorem SendManagerLoop_add (a b : Nat) (s : Server) :
    Server.SendManager (a + b) s
      = (Server.SendManager a s).bind (Server.SendManager b) := by
  induction a generalizing s with
  | zero => simp [Server.SendManager]
  | succ a ih =>
    have e : a + 1 + b = (a + b) + 1 := by omega
    rw [e]
    simp only [Server.SendManager]
    cases s.SendManagerIter with
    | none => rfl
    | some s1 => exact ih s1

/-! ## Dispatch loop: claims -/

/-- C8 (dispatch loop with no call from outside in between): starting from queue contents
`m1..mn`, receiver table `R` and `JobCount = cnt`, if `R` is non-empty the loop reaches,
after `n` iterations, a state with an empty queue and `JobCount = cnt + n` in which exactly
`n` jobs have been sent, the `i`-th (from `0`) being `JobID = cnt + i`, `Msg = m_i`, with
`Dests` the receiver table, whose contents are `R`; further iterations change nothing. If
`R` is empty or the queue is empty, an iteration pops nothing and sends nothing: the whole
server state is unchanged. -/
theorem C8_dispatch_loop (ms : List String) (c : Connections) (cnt : Int)
    (js : List MsgJob) :
    (0 < c.readers.len →
      ∀ k : Nat,
        Server.SendManager (ms.length + k)
            { Queue := { queue := ms }, Connections := c, JobCount := cnt, Jobs := js }
          = some { Queue := { queue := [] }, Connections := c,
                   JobCount := cnt + (ms.length : Int),
                   Jobs := js ++ dispatched c.Readers cnt ms })
    ∧ (dispatched c.Readers cnt ms).length = ms.length
    ∧ (∀ (i : Nat) (h1 : i < (dispatched c.Readers cnt ms).length) (h2 : i < ms.length),
        (dispatched c.Readers cnt ms).get ⟨i, h1⟩
          = { JobID := cnt + (i : Int), Msg := ms.get ⟨i, h2⟩, Dests := c.Readers })
    ∧ (∀ j ∈ dispatched c.Readers cnt ms, c.deref j.Dests = c.readers)
    ∧ (∀ s : Server,
        (s.Queue.Len = 0 ∨ (s.Connections.deref s.Connections.Readers).len = 0) →
        s.SendManagerIter = some s) := by
  refine ⟨?_, ?_, ?_, ?_, ?_⟩
  · intro hR k
    have h := SendManagerLoop_enumFrom ms c hR cnt 0 js
    simp only [Nat.cast_zero, add_zero] at h
    rw [SendManagerLoop_add, h]
    show Server.SendManager k _ = _
    rw [SendManagerLoop_idle]
    · rfl
    · left; rfl
  · simp [dispatched]
  · intro i h1 h2
    simp [dispatched, List.getElem_enum]
  · intro j hj
    simp only [dispatched, List.mem_map] at hj
    obtain ⟨p, _, rfl⟩ := hj
    rfl
  · intro s h
    exact SendManagerIter_idle s h

/-- Witness of C8: queue `["a", "b"]` and receivers `{1: "http://x"}` yield exactly two
jobs, for "a" then "b", with ids `0` and `1`, each with `Dests` the receiver table. -/
theorem C8_dispatch_loop_witness :
    0 < (NewConnections.AddConnection "http://x" "receive").2.readers.len
    ∧ Server.SendManager 2
        { Queue := { queue := ["a", "b"] },
          Connections := (NewConnections.AddConnection "http://x" "receive").2,
          JobCount := 0, Jobs := [] }
      = some { Queue := { queue := [] },
               Connections := (NewConnections.AddConnection "http://x" "receive").2,
               JobCount := 2,
               Jobs := [{ JobID := 0, Msg := "a", Dests := MapRef.readers },
                        { JobID := 1, Msg := "b", Dests := MapRef.readers }] }
    ∧ (NewConnections.AddConnection "http://x" "receive").2.readers.entries
        = [⟨1, "http://x"⟩] := by
  have hR : 0 < (NewConnections.AddConnection "http://x" "receive").2.readers.len := by
    decide
  refine ⟨hR, ?_, by decide⟩
  exact (C8_dispatch_loop ["a", "b"] (NewConnections.AddConnection "http://x" "receive").2
    0 []).1 hR 0

/-! ## Send worker: lemmas -/

theorem posts_append (xs ys : List Event) : posts (xs ++ ys) = posts xs ++ posts ys := by
  induction xs with
  | nil => rfl
  | cons e xs ih => cases e <;> simp [posts, ih]

theorem SendWorkerDest_ok (net : Net) (id : Int) (j : MsgJob) (dest : Int) (v : String)
    (h : (net j.JobID dest).isOk = true) :
    (SendWorkerDest net id j dest v).2 = true
    ∧ posts (SendWorkerDest net id j dest v).1 = [(v, j.Msg)] := by
  unfold SendWorkerDest
  cases hn : net j.JobID dest with
  | postErr e => rw [hn] at h; simp [Delivery.isOk] at h
  | readErr e => rw [hn] at h; simp [Delivery.isOk] at h
  | ok b => simp [posts]

theorem SendWorkerDest_fail (net : Net) (id : Int) (j : MsgJob) (dest : Int) (v : String)
    (h : (net j.JobID dest).isOk = false) :
    (SendWorkerDest net id j dest v).2 = false
    ∧ posts (SendWorkerDest net id j dest v).1 = [(v, j.Msg)] := by
  unfold SendWorkerDest
  cases hn : net j.JobID dest with
  | postErr e => simp [posts]
  | readErr e => simp [posts]
  | ok b => rw [hn] at h; simp [Delivery.isOk] at h

theorem runDeliveries_append (net : Net) (id : Int)
    (xs ys : List (MsgJob × Sigma (fun _ : Int => String))) :
    runDeliveries net id (xs ++ ys)
      = if (runDeliveries net id xs).2 then
          ((runDeliveries net id xs).1 ++ (runDeliveries net id ys).1,
            (runDeliveries net id ys).2)
        else ((runDeliveries net id xs).1, false) := by
  induction xs with
  | nil => simp [runDeliveries]
  | cons p xs ih =>
    rw [List.cons_append]
    simp only [runDeliveries]
    rw [ih]
    by_cases h1 : (SendWorkerDest net id p.1 p.2.1 p.2.2).2 = true <;>
      by_cases h2 : (runDeliveries net id xs).2 = true <;> simp [h1, h2]

theorem SendWorkerDests_eq (net : Net) (id : Int) (j : MsgJob)
    (ds : List (Sigma (fun _ : Int => String))) :
    SendWorkerDests net id j ds = runDeliveries net id (ds.map (fun d => (j, d))) := by
  induction ds with
  | nil => rfl
  | cons d ds ih => simp [SendWorkerDests, runDeliveries, ih]

theorem SendWorker_eq (net : Net) (c : Connections) (id : Int) (jobs : List MsgJob) :
    SendWorker net c id jobs = runDeliveries net id (deliveries c jobs) := by
  induction jobs with
  | nil => rfl
  | cons j js ih =>
    simp only [SendWorker, deliveries, List.flatMap_cons, runDeliveries_append,
      SendWorkerDests_eq]
    simp only [deliveries] at ih
    rw [ih]

theorem runDeliveries_all_ok (net : Net) (id : Int)
    (ps : List (MsgJob × Sigma (fun _ : Int => String)))
    (h : ∀ p ∈ ps, (net p.1.JobID p.2.1).isOk = true) :
    (runDeliveries net id ps).2 = true
    ∧ posts (runDeliveries net id ps).1 = ps.map (fun p => (p.2.2, p.1.Msg)) := by
  induction ps with
  | nil => simp [runDeliveries, posts]
  | cons p ps ih =>
    have hp := SendWorkerDest_ok net id p.1 p.2.1 p.2.2 (h p (List.mem_cons_self _ _))
    have hrest := ih (fun q hq => h q (List.mem_cons_of_mem _ hq))
    simp only [runDeliveries, hp.1, if_true, posts_append, hp.2, hrest.1, hrest.2,
      List.map_cons, List.singleton_append, and_self]

theorem runDeliveries_first_fail (net : Net) (id : Int)
    (pre post : List (MsgJob × Sigma (fun _ : Int => String)))
    (x : MsgJob × Sigma (fun _ : Int => String))
    (hpre : ∀ p ∈ pre, (net p.1.JobID p.2.1).isOk = true)
    (hx : (net x.1.JobID x.2.1).isOk = false) :
    (runDeliveries net id (pre ++ x :: post)).2 = false
    ∧ posts (runDeliveries net id (pre ++ x :: post)).1
        = (pre ++ [x]).map (fun p => (p.2.2, p.1.Msg)) := by
  have hok := runDeliveries_all_ok net id pre hpre
  have hf := SendWorkerDest_fail net id x.1 x.2.1 x.2.2 hx
  rw [runDeliveries_append]
  simp only [hok.1, if_true, runDeliveries, hf.1, posts_append, hok.2, hf.2,
    List.map_append, List.map_cons, List.map_nil, Bool.false_eq_true, if_false, and_self]

/-! ## Send worker: claims -/

/-- C9, counterexample: a job with the two destinations `1 -> "http://a"` and
`2 -> "http://b"`, on a network that refuses the delivery to destination `2`. When
destination `2` is visited first, the worker posts to "http://b", logs, and calls
`log.Fatal`: the process ends, "http://a" is never posted to and the next job is never
taken. When destination `1` is visited first, both are posted to and the process ends
all the same. -/
theorem C9_counterexample :
    SendWorker refusedAtTwo twoReceivers 7
        [{ JobID := 0, Msg := "m", Dests := twoReceivers.Readers },
         { JobID := 1, Msg := "n", Dests := twoReceivers.Readers }]
      = ([Event.post "http://b" "m", Event.logSent 7 0 "http://b",
          Event.fatal "connection refused"], false)
    ∧ SendWorkerDests refusedAtTwo 7 { JobID := 0, Msg := "m", Dests := twoReceivers.Readers }
        [⟨1, "http://a"⟩, ⟨2, "http://b"⟩]
      = ([Event.post "http://a" "m", Event.logSent 7 0 "http://a",
          Event.logResponse 7 0 "http://a" "ok",
          Event.post "http://b" "m", Event.logSent 7 0 "http://b",
          Event.fatal "connection refused"], false) := by
  constructor <;> decide

/-- C9, as the code has it: the worker attempts the deliveries of the jobs it takes one
after the other, job by job and, within a job, destination by destination in the order
`range` visits them. If every delivery succeeds, exactly one attempt is made for every
destination of every job and the process stays alive. At the first delivery that fails
(`http.Post` error or response-body read error) the worker calls `log.Fatal`: the process
ends, and the attempts made are exactly those up to and including the failed one. -/
theorem C9_worker_stops_at_first_failure (net : Net) (c : Connections) (id : Int)
    (jobs : List MsgJob) :
    ((∀ p ∈ deliveries c jobs, (net p.1.JobID p.2.1).isOk = true) →
        (SendWorker net c id jobs).2 = true
        ∧ posts (SendWorker net c id jobs).1
            = (deliveries c jobs).map (fun p => (p.2.2, p.1.Msg)))
    ∧ (∀ (pre post : List (MsgJob × Sigma (fun _ : Int => String)))
        (x : MsgJob × Sigma (fun _ : Int => String)),
        deliveries c jobs = pre ++ x :: post →
        (∀ p ∈ pre, (net p.1.JobID p.2.1).isOk = true) →
        (net x.1.JobID x.2.1).isOk = false →
        (SendWorker net c id jobs).2 = false
        ∧ posts (SendWorker net c id jobs).1
            = (pre ++ [x]).map (fun p => (p.2.2, p.1.Msg))) := by
  rw [SendWorker_eq]
  refine ⟨fun h => runDeliveries_all_ok net id _ h, ?_⟩
  intro pre post x hsplit hpre hx
  rw [hsplit]
  exact runDeliveries_first_fail net id pre post x hpre hx

/-! ## Snapshots: claims -/

/-- C10, counterexample: with the message "a" queued and the single receiver
`1 -> "http://x"`, one iteration of the dispatch loop sends a job whose `Dests` is the map
value returned by `Readers()`. At that moment it holds exactly `1 -> "http://x"`. After a
later `AddConnection("http://y", "receive")` the same `Dests` also holds `2 -> "http://y"`,
and after a later `Disconnect(1)` it is empty. -/
theorem C10_counterexample :
    oneMessageServer.SendManagerIter
      = some { Queue := NewQueue, Connections := oneReceiver, JobCount := 1,
               Jobs := [{ JobID := 0, Msg := "a", Dests := oneReceiver.Readers }] }
    ∧ (oneReceiver.deref oneReceiver.Readers).entries = [⟨1, "http://x"⟩]
    ∧ ((oneReceiver.AddConnection "http://y" "receive").2.deref oneReceiver.Readers).entries
        = [⟨2, "http://y"⟩, ⟨1, "http://x"⟩]
    ∧ (oneReceiver.AddConnection "http://y" "receive").2.deref oneReceiver.Readers
        ≠ oneReceiver.deref oneReceiver.Readers
    ∧ ((oneReceiver.Disconnect 1).2.deref oneReceiver.Readers).entries = []
    ∧ (oneReceiver.Disconnect 1).2.deref oneReceiver.Readers
        ≠ oneReceiver.deref oneReceiver.Readers := by
  refine ⟨rfl, by decide, by decide, ?_, by decide, ?_⟩
  · exact fun h => absurd (congrArg (fun m => m.entries.length) h) (by decide)
  · exact fun h => absurd (congrArg (fun m => m.entries.length) h) (by decide)

/-- C10, as the code has it: the map value returned by `Readers()` (and `Writers()`) is the
registry's own table, not a copy. The job an iteration of the dispatch loop sends has
`Dests` set to that value, so after any later calls on the registry its `Dests` is the
current receivers table: a later `AddConnection(url, "receive")` adds the new id to it
(which it did not hold when the job was sent), a later `Disconnect` of a receiver id
removes that id from it, and calls that leave the receivers table alone (`AddConnection`
with another role, `Disconnect` of an id that is not a receiver) leave it unchanged. -/
theorem C10_dests_is_live_table (s : Server) (hc : Reachable s.Connections)
    (hq : 0 < s.Queue.Len) (hr : 0 < (s.Connections.deref s.Connections.Readers).len) :
    s.SendManagerIter
      = some { s with Queue := s.Queue.Pop.2, JobCount := s.JobCount + 1,
                      Jobs := s.Jobs ++ [{ JobID := s.JobCount, Msg := s.Queue.Pop.1.1,
                                           Dests := s.Connections.Readers }] }
    ∧ (∀ ops : List Op,
        (s.Connections.run ops).deref s.Connections.Readers = (s.Connections.run ops).readers
        ∧ (s.Connections.run ops).deref s.Connections.Writers
            = (s.Connections.run ops).writers)
    ∧ (∀ url : String,
        ((s.Connections.AddConnection url "receive").2.deref s.Connections.Readers).lookup
            (s.Connections.last + 1) = some url
        ∧ (s.Connections.deref s.Connections.Readers).lookup (s.Connections.last + 1) = none)
    ∧ (∀ id : Int, id ∈ s.Connections.readers →
        id ∉ (s.Connections.Disconnect id).2.deref s.Connections.Readers)
    ∧ (∀ url mode : String, mode ≠ "receive" →
        (s.Connections.AddConnection url mode).2.deref s.Connections.Readers
          = s.Connections.deref s.Connections.Readers)
    ∧ (∀ id : Int, id ∉ s.Connections.readers →
        (s.Connections.Disconnect id).2.deref s.Connections.Readers
          = s.Connections.deref s.Connections.Readers) := by
  obtain ⟨hw, hrd, hd⟩ := hc.inv
  refine ⟨?_, fun ops => ⟨rfl, rfl⟩, ?_, ?_, ?_, ?_⟩
  · have hne : s.Queue.queue.length ≠ 0 := by
      simp only [Queue.Len] at hq
      omega
    simp only [Server.SendManagerIter, gt_iff_lt, hq, hr, and_self, if_true]
    simp [Queue.Pop, hne]
  · intro url
    rw [Connections.AddConnection_receive]
    refine ⟨AList.lookup_insert _, ?_⟩
    rw [AList.lookup_eq_none]
    intro h
    have := hrd _ h
    omega
  · intro id hid
    have hnw : id ∉ s.Connections.writers := fun h => hd id ⟨h, hid⟩
    rw [Connections.Disconnect_of_mem_readers _ id hnw hid]
    simp [Connections.deref, Connections.Readers, AList.mem_erase]
  · intro url mode hm
    by_cases h1 : mode = "send"
    · subst h1
      rw [Connections.AddConnection_send]
      rfl
    · rw [Connections.AddConnection_invalid _ url mode h1 hm]
  · intro id hid
    by_cases h1 : id ∈ s.Connections.writers
    · rw [Connections.Disconnect_of_mem_writers _ id h1]
      rfl
    · rw [Connections.Disconnect_of_not_mem _ id h1 hid]

/-- Witness of C10: the server with the message "a" queued and the single receiver
`1 -> "http://x"`. -/
theorem C10_dests_is_live_table_witness :
    Reachable oneMessageServer.Connections
    ∧ 0 < oneMessageServer.Queue.Len
    ∧ 0 < (oneMessageServer.Connections.deref oneMessageServer.Connections.Readers).len
    ∧ ∀ url : String,
        ((oneMessageServer.Connections.AddConnection url "receive").2.deref
            oneMessageServer.Connections.Readers).lookup
            (oneMessageServer.Connections.last + 1) = some url
        ∧ (oneMessageServer.Connections.deref oneMessageServer.Connections.Readers).lookup
            (oneMessageServer.Connections.last + 1) = none :=
  ⟨Reachable.add _ _ _ Reachable.init, by decide, by decide,
   (C10_dests_is_live_table oneMessageServer (Reachable.add _ _ _ Reachable.init)
      (by decide) (by decide)).2.2.1⟩

end MqGo
